import Mathlib

/-!
Verification of the server-side operation log of the
Real-Time-Collaborative-Drawing-Canvas repository.

The definitions below are a shallow embedding of
`src/server/drawing-state.js` (class `DrawingStateManager`): JavaScript
values relevant to validation are modelled by `JsVal` (so that JS
truthiness is captured), the mutable class instance becomes the
structure `DrawingStateManager` passed and returned explicitly, and
`Date.now()` becomes an explicit `now : Int` argument.
-/

namespace Canvas

/-- A JavaScript primitive value, as far as the validation logic of
`drawing-state.js` can observe it: `undefined`, `null`, a number, a
string, or a boolean. -/
inductive JsVal where
  | undefined
  | null
  | num (n : Int)
  | str (s : String)
  | boolean (b : Bool)
deriving DecidableEq, Repr

/-- JS truthiness for `JsVal`: `undefined`, `null`, `0`, `""` and
`false` are falsy, everything else truthy. -/
def JsVal.truthy : JsVal → Bool
  | .undefined => false
  | .null => false
  | .num n => n != 0
  | .str s => s != ""
  | .boolean b => b

/-- An operation record as stored in the log.  `timestamp` is
`Option Int`: `none` models an absent (`undefined`) timestamp,
`some t` a numeric one.  The `payload` of draw operations is opaque to
the server logic and is not modelled. -/
structure Operation where
  id : JsVal
  userId : JsVal
  type : JsVal
  timestamp : Option Int
deriving DecidableEq, Repr

/-- JS truthiness of the `timestamp` field: `!operation.timestamp`
holds exactly when the timestamp is absent or `0`. -/
def tsFalsy : Option Int → Bool
  | none => true
  | some n => n == 0

/-- The state of a `DrawingStateManager` instance.  JS `Map`s are
modelled as insertion-ordered association lists. -/
structure DrawingStateManager where
  operations : List Operation
  maxOperations : Nat
  operationTimestamps : List (JsVal × Option Int)
  currentStateIndex : Int
  userOperations : List (JsVal × List Operation)
deriving DecidableEq, Repr

/-- The constructor of `DrawingStateManager`: empty log,
`maxOperations = 500`, `currentStateIndex = -1`, empty maps. -/
def DrawingStateManager.init : DrawingStateManager :=
  { operations := []
    maxOperations := 500
    operationTimestamps := []
    currentStateIndex := -1
    userOperations := [] }

/-- `Map.prototype.has` on an insertion-ordered association list. -/
def mapHas {α : Type} (m : List (JsVal × α)) (k : JsVal) : Bool :=
  m.any (fun p => decide (p.1 = k))

/-- `Map.prototype.get` on an insertion-ordered association list. -/
def mapGet {α : Type} (m : List (JsVal × α)) (k : JsVal) : Option α :=
  (m.find? (fun p => decide (p.1 = k))).map Prod.snd

/-- `Map.prototype.set`: overwrite the existing entry in place, or
append a new entry at the end (JS Maps keep insertion order). -/
def mapSet {α : Type} (m : List (JsVal × α)) (k : JsVal) (v : α) :
    List (JsVal × α) :=
  if mapHas m k then m.map (fun p => if p.1 = k then (k, v) else p)
  else m ++ [(k, v)]

/-- `Map.prototype.delete`. -/
def mapDelete {α : Type} (m : List (JsVal × α)) (k : JsVal) :
    List (JsVal × α) :=
  m.filter (fun p => decide (p.1 ≠ k))

/-- `Array.prototype.slice(0, e)`: for a negative end index JS counts
from the end of the array. -/
def jsSliceTo (l : List Operation) (e : Int) : List Operation :=
  if 0 ≤ e then l.take e.toNat else l.take ((l.length : Int) + e).toNat

/-- `getActiveOperations()`: `this.operations.slice(0, this.currentStateIndex + 1)`. -/
def getActiveOperations (s : DrawingStateManager) : List Operation :=
  jsSliceTo s.operations (s.currentStateIndex + 1)

/-- `detectConflict(newOperation)`: scan the whole log for operations
of another user whose timestamp is within the 100 ms window and return
the last such operation, `none` otherwise. -/
def detectConflict (s : DrawingStateManager) (newOperation : Operation) :
    Option Operation :=
  let timeWindow : Nat := 100
  let recentOps := s.operations.filter (fun op =>
    decide ((op.timestamp.getD 0 - newOperation.timestamp.getD 0).natAbs < timeWindow)
      && decide (op.userId ≠ newOperation.userId))
  recentOps.getLast?

/-- `resolveConflict(newOperation, conflictingOperation)`: logs a
diagnostic and returns `newOperation` unchanged. -/
def resolveConflict (newOperation : Operation)
    (conflictingOperation : Operation) : Operation :=
  newOperation

/-- The `if (conflict) operation = this.resolveConflict(operation, conflict)`
step of `addOperation`. -/
def applyConflictResolution (operation : Operation)
    (conflict : Option Operation) : Operation :=
  match conflict with
  | some c => resolveConflict operation c
  | none => operation

/-- The `if (!operation.timestamp) operation.timestamp = Date.now()`
step of `addOperation`. -/
def withTimestamp (operation : Operation) (now : Int) : Operation :=
  if tsFalsy operation.timestamp then { operation with timestamp := some now }
  else operation

/-- The redo-branch truncation step of `addOperation`:
`if (currentStateIndex < operations.length - 1) operations = operations.slice(0, currentStateIndex + 1)`. -/
def truncateRedoBranch (s : DrawingStateManager) : DrawingStateManager :=
  if s.currentStateIndex < (s.operations.length : Int) - 1 then
    { s with operations := jsSliceTo s.operations (s.currentStateIndex + 1) }
  else s

/-- The `userOperations` update of `addOperation`: create an empty list
for a first-time user, then push the operation onto the user's list. -/
def userOpsPush (m : List (JsVal × List Operation)) (userId : JsVal)
    (operation : Operation) : List (JsVal × List Operation) :=
  let m' := if mapHas m userId then m else mapSet m userId []
  mapSet m' userId ((mapGet m' userId).getD [] ++ [operation])

/-- The push step of `addOperation`: append the operation, advance the
cursor, record its timestamp, index it under its user. -/
def pushOperation (s : DrawingStateManager) (operation : Operation) :
    DrawingStateManager :=
  { s with
    operations := s.operations ++ [operation]
    currentStateIndex := s.currentStateIndex + 1
    operationTimestamps := mapSet s.operationTimestamps operation.id operation.timestamp
    userOperations := userOpsPush s.userOperations operation.userId operation }

/-- The retention step of `addOperation`: when the log exceeds
`maxOperations`, shift off the oldest entry, decrement the cursor, and
drop the evicted operation's timestamp record. -/
def enforceRetention (s : DrawingStateManager) : DrawingStateManager :=
  if s.operations.length > s.maxOperations then
    { s with
      operations := s.operations.tail
      currentStateIndex := s.currentStateIndex - 1
      operationTimestamps :=
        match s.operations.head? with
        | some removed => mapDelete s.operationTimestamps removed.id
        | none => s.operationTimestamps }
  else s

/-- The body of `addOperation` after validation has passed: assign a
timestamp if missing, run conflict detection/resolution, truncate any
redo branch, push, and enforce the retention bound. -/
def addValidOperation (s : DrawingStateManager) (operation0 : Operation)
    (now : Int) : DrawingStateManager :=
  let operation1 := withTimestamp operation0 now
  let operation := applyConflictResolution operation1 (detectConflict s operation1)
  enforceRetention (pushOperation (truncateRedoBranch s) operation)

/-- `addOperation(operation)`.  The argument is `Option Operation`:
`none` models a falsy argument (`!operation`).  Validation rejects a
strictly `undefined` `id` and a falsy `userId` or `type`.  Returns the
JS boolean result together with the updated state. -/
def addOperation (s : DrawingStateManager) (operation? : Option Operation)
    (now : Int) : Bool × DrawingStateManager :=
  match operation? with
  | none => (false, s)
  | some operation =>
    if operation.id = JsVal.undefined ∨ operation.userId.truthy = false
        ∨ operation.type.truthy = false then
      (false, s)
    else
      (true, addValidOperation s operation now)

/-- The result record of `globalUndo`/`globalRedo`.  A missing
`operation` field (`success: false` case) is `none`. -/
structure HistoryResult where
  success : Bool
  operation : Option Operation
  remainingOperations : List Operation
deriving DecidableEq, Repr

/-- `globalUndo()`: if the cursor is ≥ 0, record the operation at the
cursor, decrement the cursor, and return the new active prefix. -/
def globalUndo (s : DrawingStateManager) :
    HistoryResult × DrawingStateManager :=
  if 0 ≤ s.currentStateIndex then
    let undoneOperation := s.operations[s.currentStateIndex.toNat]?
    let s' := { s with currentStateIndex := s.currentStateIndex - 1 }
    ({ success := true
       operation := undoneOperation
       remainingOperations := getActiveOperations s' }, s')
  else
    ({ success := false, operation := none, remainingOperations := [] }, s)

/-- `globalRedo()`: if the cursor is before the last index, advance it
and return the operation now active and the new active prefix. -/
def globalRedo (s : DrawingStateManager) :
    HistoryResult × DrawingStateManager :=
  if s.currentStateIndex < (s.operations.length : Int) - 1 then
    let s' := { s with currentStateIndex := s.currentStateIndex + 1 }
    let redoneOperation := s'.operations[s'.currentStateIndex.toNat]?
    ({ success := true
       operation := redoneOperation
       remainingOperations := getActiveOperations s' }, s')
  else
    ({ success := false, operation := none, remainingOperations := [] }, s)

/-- `clear()`: replace the whole history with one synthetic clear
operation, reset the cursor to 0, and empty both maps. -/
def clear (s : DrawingStateManager) (now : Int) :
    Operation × DrawingStateManager :=
  let clearOperation : Operation :=
    { id := JsVal.str ("clear_" ++ toString now)
      type := JsVal.str "clear"
      userId := JsVal.str "system"
      timestamp := some now }
  (clearOperation,
   { s with
     operations := [clearOperation]
     currentStateIndex := 0
     operationTimestamps := []
     userOperations := [] })

/-- The record returned by `getStats()`. -/
structure Stats where
  totalOperations : Nat
  currentIndex : Int
  activeUsers : Nat
  canUndo : Bool
  canRedo : Bool
deriving DecidableEq, Repr

/-- `getStats()`. -/
def getStats (s : DrawingStateManager) : Stats :=
  { totalOperations := s.operations.length
    currentIndex := s.currentStateIndex
    activeUsers := s.userOperations.length
    canUndo := decide (0 ≤ s.currentStateIndex)
    canRedo := decide (s.currentStateIndex < (s.operations.length : Int) - 1) }

/-- Operation-validation predicate: exactly the condition under which
`addOperation` does not reject a non-null argument. -/
def validOp (operation : Operation) : Prop :=
  operation.id ≠ JsVal.undefined ∧ operation.userId.truthy = true
    ∧ operation.type.truthy = true

instance (operation : Operation) : Decidable (validOp operation) := by
  unfold validOp; infer_instance

/-- States reachable from the initial manager by any sequence of
`addOperation`, `globalUndo`, `globalRedo` and `clear` calls. -/
inductive Reachable : DrawingStateManager → Prop where
  | init : Reachable DrawingStateManager.init
  | add {s : DrawingStateManager} (operation? : Option Operation) (now : Int) :
      Reachable s → Reachable (addOperation s operation? now).2
  | undo {s : DrawingStateManager} :
      Reachable s → Reachable (globalUndo s).2
  | redo {s : DrawingStateManager} :
      Reachable s → Reachable (globalRedo s).2
  | clearStep {s : DrawingStateManager} (now : Int) :
      Reachable s → Reachable (clear s now).2

/-- The structural invariant of the log: cursor within `[-1, length-1]`,
length within the retention bound, and the bound itself fixed at 500. -/
def Inv (s : DrawingStateManager) : Prop :=
  -1 ≤ s.currentStateIndex
    ∧ s.currentStateIndex ≤ (s.operations.length : Int) - 1
    ∧ s.operations.length ≤ 500
    ∧ s.maxOperations = 500

/-- A state whose cursor sits at the last index of the log (the shape
produced by building a log purely from `addOperation` calls). -/
def AtEnd (s : DrawingStateManager) : Prop :=
  s.currentStateIndex = (s.operations.length : Int) - 1
    ∧ s.operations.length ≤ 500
    ∧ s.maxOperations = 500

/-- Building a log purely from `addOperation` calls, starting from the
initial manager.  Each entry carries the submitted argument and the
`Date.now()` value of that call. -/
def applyAll (inputs : List (Option Operation × Int)) : DrawingStateManager :=
  inputs.foldl (fun s p => (addOperation s p.1 p.2).2) DrawingStateManager.init

/-- One externally triggered call on the manager. -/
inductive Event where
  | addEvent (operation? : Option Operation) (now : Int)
  | undoEvent
  | redoEvent
  | clearEvent (now : Int)

/-- Dispatch one event to the manager. -/
def stepEvent (s : DrawingStateManager) : Event → DrawingStateManager
  | .addEvent operation? now => (addOperation s operation? now).2
  | .undoEvent => (globalUndo s).2
  | .redoEvent => (globalRedo s).2
  | .clearEvent now => (clear s now).2

/-- Run a sequence of events from the initial manager. -/
def runEvents (es : List Event) : DrawingStateManager :=
  es.foldl stepEvent DrawingStateManager.init

/-- Formalization of the claimed reading "number of distinct users who
have ever submitted an operation": the distinct `userId`s, in
first-seen order, of all operations accepted by `addOperation` over a
trace (acceptance is exactly validation success).  Used to compare the
`activeUsers` statistic against the claim. -/
def usersEverStep (acc : List JsVal) : Event → List JsVal
  | .addEvent (some o) _ =>
      if validOp o then (if o.userId ∈ acc then acc else acc ++ [o.userId]) else acc
  | _ => acc

/-- Distinct `userId`s of operations ever accepted over a trace. -/
def usersEver (es : List Event) : List JsVal :=
  es.foldl usersEverStep []

/-- Distinct `userId`s of operations accepted since the most recent
`clear()` of a trace (or since server start when there is none): the
amended reading of the `activeUsers` statistic. -/
def usersSinceClearStep (acc : List JsVal) : Event → List JsVal
  | .addEvent (some o) _ =>
      if validOp o then (if o.userId ∈ acc then acc else acc ++ [o.userId]) else acc
  | .clearEvent _ => []
  | _ => acc

/-- Fold of `usersSinceClearStep` over a trace. -/
def usersSinceClear (es : List Event) : List JsVal :=
  es.foldl usersSinceClearStep []

/-! ### Basic lemmas about the steps of `addOperation` -/

lemma applyConflictResolution_eq (o : Operation) (c? : Option Operation) :
    applyConflictResolution o c? = o := by
  cases c? <;> rfl

lemma addValidOperation_eq (s : DrawingStateManager) (op : Operation) (now : Int) :
    addValidOperation s op now =
      enforceRetention (pushOperation (truncateRedoBranch s) (withTimestamp op now)) := by
  show enforceRetention (pushOperation (truncateRedoBranch s)
    (applyConflictResolution (withTimestamp op now)
      (detectConflict s (withTimestamp op now)))) = _
  rw [applyConflictResolution_eq]

lemma withTimestamp_id (o : Operation) (now : Int) :
    (withTimestamp o now).id = o.id := by
  unfold withTimestamp; split <;> rfl

lemma withTimestamp_userId (o : Operation) (now : Int) :
    (withTimestamp o now).userId = o.userId := by
  unfold withTimestamp; split <;> rfl

lemma withTimestamp_type (o : Operation) (now : Int) :
    (withTimestamp o now).type = o.type := by
  unfold withTimestamp; split <;> rfl

lemma withTimestamp_of_not_falsy (o : Operation) (now : Int)
    (h : tsFalsy o.timestamp = false) : withTimestamp o now = o := by
  unfold withTimestamp
  rw [h]
  rfl

lemma withTimestamp_of_falsy (o : Operation) (now : Int)
    (h : tsFalsy o.timestamp = true) :
    (withTimestamp o now).timestamp = some now := by
  unfold withTimestamp
  rw [h]
  rfl

lemma addOperation_valid (s : DrawingStateManager) (op : Operation) (now : Int)
    (h : validOp op) :
    addOperation s (some op) now = (true, addValidOperation s op now) := by
  rcases h with ⟨h1, h2, h3⟩
  simp only [addOperation]
  rw [if_neg]
  rintro (hc | hc | hc) <;> simp_all

lemma addOperation_invalid (s : DrawingStateManager) (op : Operation) (now : Int)
    (h : ¬ validOp op) :
    addOperation s (some op) now = (false, s) := by
  have hc : op.id = JsVal.undefined ∨ op.userId.truthy = false
      ∨ op.type.truthy = false := by
    by_contra hcc
    push_neg at hcc
    exact h ⟨hcc.1, by simpa using hcc.2.1, by simpa using hcc.2.2⟩
  simp only [addOperation]
  rw [if_pos hc]

lemma truncate_currentStateIndex (s : DrawingStateManager) :
    (truncateRedoBranch s).currentStateIndex = s.currentStateIndex := by
  unfold truncateRedoBranch; split <;> rfl

lemma truncate_maxOperations (s : DrawingStateManager) :
    (truncateRedoBranch s).maxOperations = s.maxOperations := by
  unfold truncateRedoBranch; split <;> rfl

lemma truncate_userOperations (s : DrawingStateManager) :
    (truncateRedoBranch s).userOperations = s.userOperations := by
  unfold truncateRedoBranch; split <;> rfl

lemma truncate_operations (s : DrawingStateManager)
    (h1 : -1 ≤ s.currentStateIndex)
    (h2 : s.currentStateIndex ≤ (s.operations.length : Int) - 1) :
    (truncateRedoBranch s).operations =
      s.operations.take (s.currentStateIndex + 1).toNat := by
  unfold truncateRedoBranch
  split
  · show jsSliceTo s.operations (s.currentStateIndex + 1) = _
    unfold jsSliceTo
    rw [if_pos (by omega)]
  · have hc : (s.currentStateIndex + 1).toNat = s.operations.length := by omega
    rw [hc, List.take_length]

lemma enforce_userOperations (s : DrawingStateManager) :
    (enforceRetention s).userOperations = s.userOperations := by
  unfold enforceRetention; split <;> rfl

lemma enforce_maxOperations (s : DrawingStateManager) :
    (enforceRetention s).maxOperations = s.maxOperations := by
  unfold enforceRetention; split <;> rfl

lemma enforce_of_le (s : DrawingStateManager)
    (h : s.operations.length ≤ s.maxOperations) :
    enforceRetention s = s := by
  unfold enforceRetention
  rw [if_neg (by omega)]

lemma enforce_operations_of_gt (s : DrawingStateManager)
    (h : s.operations.length > s.maxOperations) :
    (enforceRetention s).operations = s.operations.tail := by
  unfold enforceRetention
  rw [if_pos h]

lemma enforce_index_of_gt (s : DrawingStateManager)
    (h : s.operations.length > s.maxOperations) :
    (enforceRetention s).currentStateIndex = s.currentStateIndex - 1 := by
  unfold enforceRetention
  rw [if_pos h]

/-! ### Characterization of a successful `addOperation` under the invariant -/

lemma add_valid_ops_lt (s : DrawingStateManager) (op : Operation) (now : Int)
    (hInv : Inv s) (hc : s.currentStateIndex < 499) :
    (addOperation s (some op) now).2.operations
        = s.operations.take (s.currentStateIndex + 1).toNat ++ [withTimestamp op now]
      ∧ (addOperation s (some op) now).2.currentStateIndex
        = s.currentStateIndex + 1
      ∨ ¬ validOp op := by
  by_cases hv : validOp op
  · left
    obtain ⟨h1, h2, h3, h4⟩ := hInv
    rw [addOperation_valid s op now hv, addValidOperation_eq]
    have htr := truncate_operations s h1 h2
    have hlen : (pushOperation (truncateRedoBranch s) (withTimestamp op now)).operations.length
        ≤ (pushOperation (truncateRedoBranch s) (withTimestamp op now)).maxOperations := by
      show ((truncateRedoBranch s).operations ++ [withTimestamp op now]).length
        ≤ (truncateRedoBranch s).maxOperations
      rw [htr, truncate_maxOperations, h4]
      simp only [List.length_append, List.length_take, List.length_cons,
        List.length_nil]
      omega
    rw [enforce_of_le _ hlen]
    constructor
    · show (truncateRedoBranch s).operations ++ [withTimestamp op now] = _
      rw [htr]
    · show (truncateRedoBranch s).currentStateIndex + 1 = _
      rw [truncate_currentStateIndex]
  · right; exact hv

lemma add_valid_ops_evict (s : DrawingStateManager) (op : Operation) (now : Int)
    (hInv : Inv s) (hc : s.currentStateIndex = 499) :
    (addOperation s (some op) now).2.operations
        = s.operations.tail ++ [withTimestamp op now]
      ∧ (addOperation s (some op) now).2.currentStateIndex = 499
      ∨ ¬ validOp op := by
  by_cases hv : validOp op
  · left
    obtain ⟨h1, h2, h3, h4⟩ := hInv
    have hn : s.operations.length = 500 := by omega
    rw [addOperation_valid s op now hv, addValidOperation_eq]
    have htr := truncate_operations s h1 h2
    have htake : s.operations.take (s.currentStateIndex + 1).toNat = s.operations := by
      have : (s.currentStateIndex + 1).toNat = s.operations.length := by omega
      rw [this, List.take_length]
    have hops : (pushOperation (truncateRedoBranch s) (withTimestamp op now)).operations
        = s.operations ++ [withTimestamp op now] := by
      show (truncateRedoBranch s).operations ++ [withTimestamp op now] = _
      rw [htr, htake]
    have hgt : (pushOperation (truncateRedoBranch s) (withTimestamp op now)).operations.length
        > (pushOperation (truncateRedoBranch s) (withTimestamp op now)).maxOperations := by
      rw [hops]
      show _ > (truncateRedoBranch s).maxOperations
      rw [truncate_maxOperations, h4]
      simp only [List.length_append, List.length_cons, List.length_nil]
      omega
    constructor
    · rw [enforce_operations_of_gt _ hgt, hops]
      have hne : s.operations ≠ [] := by
        intro hnil; rw [hnil] at hn; simp at hn
      rw [List.tail_append_of_ne_nil hne]
    · rw [enforce_index_of_gt _ hgt]
      show (truncateRedoBranch s).currentStateIndex + 1 - 1 = 499
      rw [truncate_currentStateIndex]
      omega
  · right; exact hv

lemma add_userOperations (s : DrawingStateManager) (op : Operation) (now : Int)
    (hv : validOp op) :
    (addOperation s (some op) now).2.userOperations
      = userOpsPush s.userOperations op.userId (withTimestamp op now) := by
  rw [addOperation_valid s op now hv, addValidOperation_eq]
  show (enforceRetention _).userOperations = _
  rw [enforce_userOperations]
  show userOpsPush (truncateRedoBranch s).userOperations
      (withTimestamp op now).userId (withTimestamp op now) = _
  rw [truncate_userOperations, withTimestamp_userId]

lemma add_maxOperations (s : DrawingStateManager) (op? : Option Operation) (now : Int) :
    (addOperation s op? now).2.maxOperations = s.maxOperations := by
  cases op? with
  | none => rfl
  | some op =>
    by_cases hv : validOp op
    · rw [addOperation_valid s op now hv, addValidOperation_eq]
      show (enforceRetention _).maxOperations = _
      rw [enforce_maxOperations]
      show (truncateRedoBranch s).maxOperations = _
      rw [truncate_maxOperations]
    · rw [addOperation_invalid s op now hv]

/-! ### Invariant preservation and reachability -/

lemma inv_init : Inv DrawingStateManager.init := by
  refine ⟨by decide, by decide, by decide, rfl⟩

lemma inv_add (s : DrawingStateManager) (op? : Option Operation) (now : Int)
    (h : Inv s) : Inv (addOperation s op? now).2 := by
  cases op? with
  | none => exact h
  | some op =>
    by_cases hv : validOp op
    · have hmax := add_maxOperations s (some op) now
      obtain ⟨h1, h2, h3, h4⟩ := h
      by_cases hc : s.currentStateIndex < 499
      · rcases add_valid_ops_lt s op now ⟨h1, h2, h3, h4⟩ hc with ⟨hops, hidx⟩ | hbad
        · have hlen : (addOperation s (some op) now).2.operations.length
              = (s.currentStateIndex + 1).toNat + 1 := by
            rw [hops]
            simp only [List.length_append, List.length_take, List.length_cons,
              List.length_nil]
            omega
          exact ⟨by rw [hidx]; omega, by rw [hidx, hlen]; omega,
            by rw [hlen]; omega, hmax.trans h4⟩
        · exact absurd hv hbad
      · have hc' : s.currentStateIndex = 499 := by omega
        rcases add_valid_ops_evict s op now ⟨h1, h2, h3, h4⟩ hc' with ⟨hops, hidx⟩ | hbad
        · have hn : s.operations.length = 500 := by omega
          have hlen : (addOperation s (some op) now).2.operations.length = 500 := by
            rw [hops]
            simp only [List.length_append, List.length_tail, List.length_cons,
              List.length_nil]
            omega
          exact ⟨by rw [hidx]; omega, by rw [hidx, hlen]; omega,
            by rw [hlen], hmax.trans h4⟩
        · exact absurd hv hbad
    · rw [addOperation_invalid s op now hv]
      exact h

lemma globalUndo_state (s : DrawingStateManager) :
    (globalUndo s).2 =
      if 0 ≤ s.currentStateIndex then
        { s with currentStateIndex := s.currentStateIndex - 1 }
      else s := by
  unfold globalUndo
  split <;> rfl

lemma globalRedo_state (s : DrawingStateManager) :
    (globalRedo s).2 =
      if s.currentStateIndex < (s.operations.length : Int) - 1 then
        { s with currentStateIndex := s.currentStateIndex + 1 }
      else s := by
  unfold globalRedo
  split <;> rfl

lemma inv_undo (s : DrawingStateManager) (h : Inv s) : Inv (globalUndo s).2 := by
  obtain ⟨h1, h2, h3, h4⟩ := h
  rw [globalUndo_state]
  split
  · exact ⟨by dsimp only; omega, by dsimp only; omega, h3, h4⟩
  · exact ⟨h1, h2, h3, h4⟩

lemma inv_redo (s : DrawingStateManager) (h : Inv s) : Inv (globalRedo s).2 := by
  obtain ⟨h1, h2, h3, h4⟩ := h
  rw [globalRedo_state]
  split
  · refine ⟨by dsimp only; omega, ?_, h3, h4⟩
    dsimp only
    omega
  · exact ⟨h1, h2, h3, h4⟩

lemma inv_clear (s : DrawingStateManager) (now : Int) (h : Inv s) :
    Inv (clear s now).2 := by
  obtain ⟨-, -, -, h4⟩ := h
  refine ⟨?_, ?_, ?_, ?_⟩ <;>
    simp only [clear, List.length_cons, List.length_nil] <;> omega

lemma reachable_inv (s : DrawingStateManager) (h : Reachable s) : Inv s := by
  induction h with
  | init => exact inv_init
  | add op? now _ ih => exact inv_add _ op? now ih
  | undo _ ih => exact inv_undo _ ih
  | redo _ ih => exact inv_redo _ ih
  | clearStep now _ ih => exact inv_clear _ now ih

/-! ### Lemmas about the association-list maps -/

lemma mapHas_iff {α : Type} (m : List (JsVal × α)) (k : JsVal) :
    mapHas m k = true ↔ k ∈ m.map Prod.fst := by
  constructor
  · intro h
    obtain ⟨p, hp, hk⟩ := List.any_eq_true.mp h
    exact List.mem_map.mpr ⟨p, hp, of_decide_eq_true hk⟩
  · intro h
    obtain ⟨p, hp, hk⟩ := List.mem_map.mp h
    exact List.any_eq_true.mpr ⟨p, hp, decide_eq_true hk⟩

lemma mapSet_keys_of_has {α : Type} (m : List (JsVal × α)) (k : JsVal) (v : α)
    (h : mapHas m k = true) :
    (mapSet m k v).map Prod.fst = m.map Prod.fst := by
  unfold mapSet
  rw [if_pos h, List.map_map]
  apply List.map_congr_left
  intro p hp
  by_cases hpk : p.1 = k
  · simp [hpk]
  · simp [hpk]

lemma mapSet_keys_of_not_has {α : Type} (m : List (JsVal × α)) (k : JsVal) (v : α)
    (h : mapHas m k = false) :
    (mapSet m k v).map Prod.fst = m.map Prod.fst ++ [k] := by
  unfold mapSet
  rw [if_neg (by rw [h]; exact Bool.false_ne_true), List.map_append]
  rfl

lemma userOpsPush_keys (m : List (JsVal × List Operation)) (uid : JsVal)
    (op : Operation) :
    (userOpsPush m uid op).map Prod.fst =
      if mapHas m uid then m.map Prod.fst else m.map Prod.fst ++ [uid] := by
  unfold userOpsPush
  by_cases h : mapHas m uid = true
  · rw [if_pos h, if_pos h]
    exact mapSet_keys_of_has _ _ _ h
  · have hf : mapHas m uid = false := by simp_all
    rw [if_neg h, if_neg h]
    have hk : (mapSet m uid ([] : List Operation)).map Prod.fst
        = m.map Prod.fst ++ [uid] := mapSet_keys_of_not_has _ _ _ hf
    have hh : mapHas (mapSet m uid ([] : List Operation)) uid = true :=
      (mapHas_iff _ _).mpr (by rw [hk]; simp)
    rw [mapSet_keys_of_has _ _ _ hh, hk]

lemma undo_userOperations (s : DrawingStateManager) :
    (globalUndo s).2.userOperations = s.userOperations := by
  rw [globalUndo_state]; split <;> rfl

lemma redo_userOperations (s : DrawingStateManager) :
    (globalRedo s).2.userOperations = s.userOperations := by
  rw [globalRedo_state]; split <;> rfl

/-! ### Relating `userOperations` keys to the trace-level user sets -/

lemma run_userOps_keys (es : List Event) :
    ∀ (s : DrawingStateManager) (acc : List JsVal),
      s.userOperations.map Prod.fst = acc →
      (es.foldl stepEvent s).userOperations.map Prod.fst
        = es.foldl usersSinceClearStep acc := by
  induction es with
  | nil => intro s acc h; simpa using h
  | cons e es ih =>
    intro s acc h
    rw [List.foldl_cons, List.foldl_cons]
    apply ih
    cases e with
    | addEvent op? now =>
      cases op? with
      | none => exact h
      | some o =>
        by_cases hv : validOp o
        · show (addOperation s (some o) now).2.userOperations.map Prod.fst = _
          rw [add_userOperations s o now hv, userOpsPush_keys]
          show _ = usersSinceClearStep acc (.addEvent (some o) now)
          simp only [usersSinceClearStep]
          rw [if_pos hv]
          by_cases hmem : o.userId ∈ acc
          · rw [if_pos ((mapHas_iff _ _).mpr (h ▸ hmem)), if_pos hmem]
            exact h
          · rw [if_neg (fun hh => hmem (h ▸ (mapHas_iff _ _).mp hh)),
              if_neg hmem, h]
        · show (addOperation s (some o) now).2.userOperations.map Prod.fst = _
          rw [addOperation_invalid s o now hv]
          show s.userOperations.map Prod.fst
            = usersSinceClearStep acc (.addEvent (some o) now)
          simp only [usersSinceClearStep]
          rw [if_neg hv]
          exact h
    | undoEvent =>
      show (globalUndo s).2.userOperations.map Prod.fst = acc
      rw [undo_userOperations]
      exact h
    | redoEvent =>
      show (globalRedo s).2.userOperations.map Prod.fst = acc
      rw [redo_userOperations]
      exact h
    | clearEvent now =>
      show (clear s now).2.userOperations.map Prod.fst = []
      rfl

/-! ### Logs built purely from `addOperation` keep the cursor at the end -/

lemma atEnd_inv (s : DrawingStateManager) (h : AtEnd s) : Inv s := by
  obtain ⟨h1, h2, h3⟩ := h
  exact ⟨by omega, by omega, h2, h3⟩

lemma atEnd_init : AtEnd DrawingStateManager.init :=
  ⟨by decide, by decide, rfl⟩

lemma atEnd_add (s : DrawingStateManager) (op? : Option Operation) (now : Int)
    (h : AtEnd s) : AtEnd (addOperation s op? now).2 := by
  cases op? with
  | none => exact h
  | some op =>
    by_cases hv : validOp op
    · have hmax := add_maxOperations s (some op) now
      obtain ⟨h1, h2, h3⟩ := h
      by_cases hc : s.currentStateIndex < 499
      · rcases add_valid_ops_lt s op now (atEnd_inv s ⟨h1, h2, h3⟩) hc with
          ⟨hops, hidx⟩ | hbad
        · have hlen : (addOperation s (some op) now).2.operations.length
              = (s.currentStateIndex + 1).toNat + 1 := by
            rw [hops]
            simp only [List.length_append, List.length_take, List.length_cons,
              List.length_nil]
            omega
          exact ⟨by rw [hidx, hlen]; omega, by rw [hlen]; omega, hmax.trans h3⟩
        · exact absurd hv hbad
      · have hc' : s.currentStateIndex = 499 := by omega
        rcases add_valid_ops_evict s op now (atEnd_inv s ⟨h1, h2, h3⟩) hc' with
          ⟨hops, hidx⟩ | hbad
        · have hn : s.operations.length = 500 := by omega
          have hlen : (addOperation s (some op) now).2.operations.length = 500 := by
            rw [hops]
            simp only [List.length_append, List.length_tail, List.length_cons,
              List.length_nil]
            omega
          exact ⟨by rw [hidx, hlen]; omega, by rw [hlen], hmax.trans h3⟩
        · exact absurd hv hbad
    · rw [addOperation_invalid s op now hv]
      exact h

lemma applyAll_atEnd (inputs : List (Option Operation × Int)) :
    AtEnd (applyAll inputs) := by
  have key : ∀ (l : List (Option Operation × Int)) (s : DrawingStateManager),
      AtEnd s → AtEnd (l.foldl (fun s p => (addOperation s p.1 p.2).2) s) := by
    intro l
    induction l with
    | nil => intro s h; exact h
    | cons p l ih =>
      intro s h
      rw [List.foldl_cons]
      exact ih _ (atEnd_add s p.1 p.2 h)
  exact key inputs DrawingStateManager.init atEnd_init

/-! ### Result records of `globalUndo` and `globalRedo` -/

lemma globalUndo_success_fields (s : DrawingStateManager)
    (h : 0 ≤ s.currentStateIndex) :
    (globalUndo s).1.success = true
      ∧ (globalUndo s).1.operation = s.operations[s.currentStateIndex.toNat]?
      ∧ (globalUndo s).1.remainingOperations
        = jsSliceTo s.operations s.currentStateIndex
      ∧ (globalUndo s).2.currentStateIndex = s.currentStateIndex - 1
      ∧ (globalUndo s).2.operations = s.operations := by
  unfold globalUndo
  rw [if_pos h]
  refine ⟨rfl, rfl, ?_, rfl, rfl⟩
  show getActiveOperations
      { s with currentStateIndex := s.currentStateIndex - 1 } = _
  unfold getActiveOperations
  dsimp only
  have heq : s.currentStateIndex - 1 + 1 = s.currentStateIndex := by omega
  rw [heq]

lemma globalUndo_fail (s : DrawingStateManager)
    (h : ¬ 0 ≤ s.currentStateIndex) :
    globalUndo s
      = ({ success := false, operation := none, remainingOperations := [] }, s) := by
  unfold globalUndo
  rw [if_neg h]

lemma globalRedo_fail (s : DrawingStateManager)
    (h : ¬ s.currentStateIndex < (s.operations.length : Int) - 1) :
    globalRedo s
      = ({ success := false, operation := none, remainingOperations := [] }, s) := by
  unfold globalRedo
  rw [if_neg h]

/-! ### The pushed operation sits at the end of the log, under the cursor -/

lemma add_valid_getLast (s : DrawingStateManager) (op : Operation) (now : Int)
    (hInv : Inv s) (hv : validOp op) :
    (addOperation s (some op) now).2.operations.getLast?
      = some (withTimestamp op now) := by
  by_cases hc : s.currentStateIndex < 499
  · rcases add_valid_ops_lt s op now hInv hc with ⟨hops, -⟩ | hbad
    · rw [hops, List.getLast?_concat]
    · exact absurd hv hbad
  · rcases add_valid_ops_evict s op now hInv (by
        obtain ⟨h1, h2, h3, h4⟩ := hInv; omega) with ⟨hops, -⟩ | hbad
    · rw [hops, List.getLast?_concat]
    · exact absurd hv hbad

lemma getElem_concat_at_length {α : Type} (l : List α) (a : α) (n : Nat)
    (h : n = l.length) : (l ++ [a])[n]? = some a := by
  subst h
  exact List.getElem?_concat_length l a

lemma add_valid_getElem_cursor (s : DrawingStateManager) (op : Operation)
    (now : Int) (hInv : Inv s) (hv : validOp op) :
    (addOperation s (some op) now).2.operations[
      (addOperation s (some op) now).2.currentStateIndex.toNat]?
      = some (withTimestamp op now) := by
  obtain ⟨h1, h2, h3, h4⟩ := hInv
  by_cases hc : s.currentStateIndex < 499
  · rcases add_valid_ops_lt s op now ⟨h1, h2, h3, h4⟩ hc with ⟨hops, hidx⟩ | hbad
    · rw [hops, hidx]
      apply getElem_concat_at_length
      rw [List.length_take]
      omega
    · exact absurd hv hbad
  · have hc' : s.currentStateIndex = 499 := by omega
    rcases add_valid_ops_evict s op now ⟨h1, h2, h3, h4⟩ hc' with ⟨hops, hidx⟩ | hbad
    · rw [hops, hidx]
      apply getElem_concat_at_length
      rw [List.length_tail]
      omega
    · exact absurd hv hbad

lemma undo_redo_restore (s : DrawingStateManager) (h : AtEnd s) :
    getActiveOperations (globalRedo (globalUndo s).2).2 = getActiveOperations s
      ∧ (globalRedo (globalUndo s).2).2.currentStateIndex = s.currentStateIndex := by
  obtain ⟨h1, h2, h3⟩ := h
  by_cases hz : s.operations.length = 0
  · have hc : s.currentStateIndex = -1 := by omega
    rw [globalUndo_state, if_neg (by omega), globalRedo_state, if_neg (by omega)]
    exact ⟨rfl, rfl⟩
  · have hc : 0 ≤ s.currentStateIndex := by omega
    rw [globalUndo_state, if_pos hc, globalRedo_state]
    dsimp only
    rw [if_pos (by omega)]
    constructor
    · unfold getActiveOperations
      dsimp only
      have heq : s.currentStateIndex - 1 + 1 = s.currentStateIndex := by omega
      rw [heq]
    · dsimp only
      omega

/-! ### Claim theorems -/

/-- C1: from any reachable log state in which the cursor is not at the
last index (a redo branch exists), `addOperation` on a valid operation
succeeds, discards every entry after the cursor and appends the
timestamp-resolved operation, sets the cursor to the new last index,
and an immediately following `globalRedo` returns `success = false`. -/
theorem append_truncates_redo_branch (s : DrawingStateManager) (op : Operation)
    (now : Int) (hs : Reachable s)
    (hbranch : s.currentStateIndex < (s.operations.length : Int) - 1)
    (hv : validOp op) :
    (addOperation s (some op) now).1 = true
      ∧ (addOperation s (some op) now).2.operations
        = s.operations.take (s.currentStateIndex + 1).toNat
            ++ [withTimestamp op now]
      ∧ (addOperation s (some op) now).2.currentStateIndex
        = ((addOperation s (some op) now).2.operations.length : Int) - 1
      ∧ (globalRedo (addOperation s (some op) now).2).1.success = false := by
  obtain ⟨h1, h2, h3, h4⟩ := reachable_inv s hs
  have hc : s.currentStateIndex < 499 := by omega
  rcases add_valid_ops_lt s op now ⟨h1, h2, h3, h4⟩ hc with ⟨hops, hidx⟩ | hbad
  · have hlen : (addOperation s (some op) now).2.operations.length
        = (s.currentStateIndex + 1).toNat + 1 := by
      rw [hops]
      simp only [List.length_append, List.length_take, List.length_cons,
        List.length_nil]
      omega
    have hcur : (addOperation s (some op) now).2.currentStateIndex
        = ((addOperation s (some op) now).2.operations.length : Int) - 1 := by
      rw [hidx, hlen]
      omega
    refine ⟨?_, hops, hcur, ?_⟩
    · rw [addOperation_valid s op now hv]
    · rw [globalRedo_fail _ (by omega)]
  · exact absurd hv hbad

/-- Witness for C1 at a concrete reachable state with a redo branch:
two draws followed by one undo, then a third valid draw. -/
theorem append_truncates_redo_branch_witness :
    (addOperation
        (globalUndo (addOperation
          (addOperation DrawingStateManager.init
            (some ⟨JsVal.str "w1", JsVal.str "u1", JsVal.str "draw", some 1⟩) 1).2
          (some ⟨JsVal.str "w2", JsVal.str "u2", JsVal.str "draw", some 2⟩) 2).2).2
        (some ⟨JsVal.str "w3", JsVal.str "u3", JsVal.str "draw", some 3⟩) 3).1 = true
      ∧ (addOperation
          (globalUndo (addOperation
            (addOperation DrawingStateManager.init
              (some ⟨JsVal.str "w1", JsVal.str "u1", JsVal.str "draw", some 1⟩) 1).2
            (some ⟨JsVal.str "w2", JsVal.str "u2", JsVal.str "draw", some 2⟩) 2).2).2
          (some ⟨JsVal.str "w3", JsVal.str "u3", JsVal.str "draw", some 3⟩) 3).2.operations
        = (globalUndo (addOperation
            (addOperation DrawingStateManager.init
              (some ⟨JsVal.str "w1", JsVal.str "u1", JsVal.str "draw", some 1⟩) 1).2
            (some ⟨JsVal.str "w2", JsVal.str "u2", JsVal.str "draw", some 2⟩) 2).2).2.operations.take
              ((globalUndo (addOperation
                (addOperation DrawingStateManager.init
                  (some ⟨JsVal.str "w1", JsVal.str "u1", JsVal.str "draw", some 1⟩) 1).2
                (some ⟨JsVal.str "w2", JsVal.str "u2", JsVal.str "draw", some 2⟩) 2).2).2.currentStateIndex
                  + 1).toNat
            ++ [withTimestamp ⟨JsVal.str "w3", JsVal.str "u3", JsVal.str "draw", some 3⟩ 3]
      ∧ (addOperation
          (globalUndo (addOperation
            (addOperation DrawingStateManager.init
              (some ⟨JsVal.str "w1", JsVal.str "u1", JsVal.str "draw", some 1⟩) 1).2
            (some ⟨JsVal.str "w2", JsVal.str "u2", JsVal.str "draw", some 2⟩) 2).2).2
          (some ⟨JsVal.str "w3", JsVal.str "u3", JsVal.str "draw", some 3⟩) 3).2.currentStateIndex
        = ((addOperation
            (globalUndo (addOperation
              (addOperation DrawingStateManager.init
                (some ⟨JsVal.str "w1", JsVal.str "u1", JsVal.str "draw", some 1⟩) 1).2
              (some ⟨JsVal.str "w2", JsVal.str "u2", JsVal.str "draw", some 2⟩) 2).2).2
            (some ⟨JsVal.str "w3", JsVal.str "u3", JsVal.str "draw", some 3⟩) 3).2.operations.length : Int)
          - 1
      ∧ (globalRedo (addOperation
          (globalUndo (addOperation
            (addOperation DrawingStateManager.init
              (some ⟨JsVal.str "w1", JsVal.str "u1", JsVal.str "draw", some 1⟩) 1).2
            (some ⟨JsVal.str "w2", JsVal.str "u2", JsVal.str "draw", some 2⟩) 2).2).2
          (some ⟨JsVal.str "w3", JsVal.str "u3", JsVal.str "draw", some 3⟩) 3).2).1.success
        = false :=
  append_truncates_redo_branch _ _ 3
    (Reachable.undo (Reachable.add _ 2 (Reachable.add _ 1 Reachable.init)))
    (by decide) (by decide)

/-- C2: every reachable state satisfies `-1 ≤ cursor ≤ length - 1` and
`length ≤ 500`; moreover after any successful `addOperation` from a
reachable state (in particular across a retention eviction, where the
cursor is decremented together with the shift) the cursor still denotes
the operation that was just appended. -/
theorem cursor_bounds_invariant (s : DrawingStateManager) (hs : Reachable s) :
    (-1 ≤ s.currentStateIndex
        ∧ s.currentStateIndex ≤ (s.operations.length : Int) - 1
        ∧ s.operations.length ≤ 500)
      ∧ ∀ (op : Operation) (now : Int), validOp op →
          (addOperation s (some op) now).2.operations[
            (addOperation s (some op) now).2.currentStateIndex.toNat]?
            = some (withTimestamp op now) := by
  obtain ⟨h1, h2, h3, h4⟩ := reachable_inv s hs
  exact ⟨⟨h1, h2, h3⟩,
    fun op now hv => add_valid_getElem_cursor s op now ⟨h1, h2, h3, h4⟩ hv⟩

/-- Witness for C2 at the initial state and one concrete valid add. -/
theorem cursor_bounds_invariant_witness :
    (-1 ≤ DrawingStateManager.init.currentStateIndex
        ∧ DrawingStateManager.init.currentStateIndex
          ≤ (DrawingStateManager.init.operations.length : Int) - 1
        ∧ DrawingStateManager.init.operations.length ≤ 500)
      ∧ (addOperation DrawingStateManager.init
          (some ⟨JsVal.str "b1", JsVal.str "u1", JsVal.str "draw", some 4⟩) 7).2.operations[
          (addOperation DrawingStateManager.init
            (some ⟨JsVal.str "b1", JsVal.str "u1", JsVal.str "draw", some 4⟩) 7).2.currentStateIndex.toNat]?
        = some (withTimestamp ⟨JsVal.str "b1", JsVal.str "u1", JsVal.str "draw", some 4⟩ 7) :=
  ⟨(cursor_bounds_invariant _ Reachable.init).1,
   (cursor_bounds_invariant _ Reachable.init).2 _ 7 (by decide)⟩

/-- C4: for a log built purely from `addOperation` calls, `globalUndo`
followed by `globalRedo` restores the identical active-operations
prefix and the identical cursor value. -/
theorem undo_redo_symmetry (inputs : List (Option Operation × Int)) :
    getActiveOperations (globalRedo (globalUndo (applyAll inputs)).2).2
        = getActiveOperations (applyAll inputs)
      ∧ (globalRedo (globalUndo (applyAll inputs)).2).2.currentStateIndex
        = (applyAll inputs).currentStateIndex :=
  undo_redo_restore (applyAll inputs) (applyAll_atEnd inputs)

/-- C5: after `clear()` from any prior state the active operations are
exactly the one synthetic `clear` operation with `userId = "system"`,
the cursor is 0, and a subsequent `globalUndo` succeeds, leaving cursor
-1 and zero active operations. -/
theorem clear_hard_reset (s : DrawingStateManager) (now : Int) :
    getActiveOperations (clear s now).2 = [(clear s now).1]
      ∧ (clear s now).1.type = JsVal.str "clear"
      ∧ (clear s now).1.userId = JsVal.str "system"
      ∧ (clear s now).2.currentStateIndex = 0
      ∧ (globalUndo (clear s now).2).1.success = true
      ∧ (globalUndo (clear s now).2).2.currentStateIndex = -1
      ∧ (globalUndo (clear s now).2).1.remainingOperations = []
      ∧ getActiveOperations (globalUndo (clear s now).2).2 = [] := by
  obtain ⟨hsu, hop, hrem, hidxu, hopsu⟩ :=
    globalUndo_success_fields (clear s now).2
      (by show (0 : Int) ≤ 0; norm_num)
  refine ⟨?_, rfl, rfl, rfl, hsu, ?_, ?_, ?_⟩
  · show jsSliceTo [(clear s now).1] (0 + 1) = _
    unfold jsSliceTo
    rw [if_pos (by norm_num)]
    rfl
  · rw [hidxu]
    show (0 : Int) - 1 = -1
    norm_num
  · rw [hrem]
    show jsSliceTo [(clear s now).1] 0 = []
    unfold jsSliceTo
    rw [if_pos (by norm_num)]
    rfl
  · unfold getActiveOperations
    rw [hopsu, hidxu]
    show jsSliceTo [(clear s now).1] ((0 : Int) - 1 + 1) = []
    norm_num
    unfold jsSliceTo
    rw [if_pos (by norm_num)]
    rfl

/-- C6: failing operations leave the state unchanged: `addOperation`
with a missing (`undefined`) `id`, `userId` or `type` returns `false`
with the log untouched, `globalUndo` at cursor -1 and `globalRedo` at
the last index both return `success = false` with the log untouched. -/
theorem failure_atomicity :
    (∀ (s : DrawingStateManager) (op : Operation) (now : Int),
        op.id = JsVal.undefined ∨ op.userId = JsVal.undefined
          ∨ op.type = JsVal.undefined →
        addOperation s (some op) now = (false, s))
      ∧ (∀ s : DrawingStateManager, s.currentStateIndex = -1 →
          globalUndo s
            = ({ success := false, operation := none, remainingOperations := [] }, s))
      ∧ (∀ s : DrawingStateManager,
          s.currentStateIndex = (s.operations.length : Int) - 1 →
          globalRedo s
            = ({ success := false, operation := none, remainingOperations := [] }, s)) := by
  refine ⟨?_, ?_, ?_⟩
  · intro s op now hmiss
    apply addOperation_invalid
    rintro ⟨v1, v2, v3⟩
    rcases hmiss with h | h | h
    · exact v1 h
    · rw [h] at v2; exact absurd v2 (by decide)
    · rw [h] at v3; exact absurd v3 (by decide)
  · intro s h
    exact globalUndo_fail s (by omega)
  · intro s h
    exact globalRedo_fail s (by omega)

/-- C3: after a draw by user A and then a draw by user B, one
`globalUndo` (which takes no user argument, so any participant's undo
behaves the same) succeeds, reports B's operation as the undone one,
and leaves exactly A's operation active. -/
theorem global_undo_undoes_latest (x y : Operation) (nx ny : Int)
    (hvx : validOp x) (hvy : validOp y)
    (htx : x.type = JsVal.str "draw") (hty : y.type = JsVal.str "draw")
    (husers : x.userId ≠ y.userId) :
    (globalUndo (addOperation (addOperation DrawingStateManager.init
        (some x) nx).2 (some y) ny).2).1.success = true
      ∧ (globalUndo (addOperation (addOperation DrawingStateManager.init
          (some x) nx).2 (some y) ny).2).1.operation
        = some (withTimestamp y ny)
      ∧ (globalUndo (addOperation (addOperation DrawingStateManager.init
          (some x) nx).2 (some y) ny).2).1.remainingOperations
        = [withTimestamp x nx]
      ∧ getActiveOperations (globalUndo (addOperation
          (addOperation DrawingStateManager.init (some x) nx).2
          (some y) ny).2).2
        = [withTimestamp x nx] := by
  obtain ⟨hops1, hidx1⟩ :=
    (add_valid_ops_lt DrawingStateManager.init x nx inv_init
      (by decide)).resolve_right (not_not_intro hvx)
  have hops1' : (addOperation DrawingStateManager.init (some x) nx).2.operations
      = [withTimestamp x nx] := by
    rw [hops1]; rfl
  have hidx1' : (addOperation DrawingStateManager.init
      (some x) nx).2.currentStateIndex = 0 := by
    rw [hidx1]; decide
  have hInv1 : Inv (addOperation DrawingStateManager.init (some x) nx).2 :=
    inv_add _ _ _ inv_init
  obtain ⟨hops2, hidx2⟩ :=
    (add_valid_ops_lt _ y ny hInv1
      (by rw [hidx1']; norm_num)).resolve_right (not_not_intro hvy)
  have hops2' : (addOperation (addOperation DrawingStateManager.init
      (some x) nx).2 (some y) ny).2.operations
      = [withTimestamp x nx, withTimestamp y ny] := by
    rw [hops2, hidx1', hops1']
    simp
  have hidx2' : (addOperation (addOperation DrawingStateManager.init
      (some x) nx).2 (some y) ny).2.currentStateIndex = 1 := by
    rw [hidx2, hidx1']; norm_num
  obtain ⟨hsu, hop, hrem, hidxu, hopsu⟩ :=
    globalUndo_success_fields _ (by rw [hidx2']; norm_num)
  refine ⟨hsu, ?_, ?_, ?_⟩
  · rw [hop, hops2', hidx2']
    rfl
  · rw [hrem, hops2', hidx2']
    show jsSliceTo [withTimestamp x nx, withTimestamp y ny] 1 = _
    unfold jsSliceTo
    rw [if_pos (by norm_num)]
    rfl
  · unfold getActiveOperations
    rw [hopsu, hidxu, hidx2', hops2']
    show jsSliceTo [withTimestamp x nx, withTimestamp y ny] (1 - 1 + 1) = _
    norm_num
    unfold jsSliceTo
    rw [if_pos (by norm_num)]
    rfl

/-- Witness for C3 with concrete draws by users A and B. -/
theorem global_undo_undoes_latest_witness :
    (globalUndo (addOperation (addOperation DrawingStateManager.init
        (some ⟨JsVal.str "p1", JsVal.str "A", JsVal.str "draw", some 100⟩) 100).2
        (some ⟨JsVal.str "p2", JsVal.str "B", JsVal.str "draw", some 200⟩) 200).2).1.success
      = true
      ∧ (globalUndo (addOperation (addOperation DrawingStateManager.init
          (some ⟨JsVal.str "p1", JsVal.str "A", JsVal.str "draw", some 100⟩) 100).2
          (some ⟨JsVal.str "p2", JsVal.str "B", JsVal.str "draw", some 200⟩) 200).2).1.operation
        = some (withTimestamp ⟨JsVal.str "p2", JsVal.str "B", JsVal.str "draw", some 200⟩ 200)
      ∧ (globalUndo (addOperation (addOperation DrawingStateManager.init
          (some ⟨JsVal.str "p1", JsVal.str "A", JsVal.str "draw", some 100⟩) 100).2
          (some ⟨JsVal.str "p2", JsVal.str "B", JsVal.str "draw", some 200⟩) 200).2).1.remainingOperations
        = [withTimestamp ⟨JsVal.str "p1", JsVal.str "A", JsVal.str "draw", some 100⟩ 100]
      ∧ getActiveOperations (globalUndo (addOperation
          (addOperation DrawingStateManager.init
            (some ⟨JsVal.str "p1", JsVal.str "A", JsVal.str "draw", some 100⟩) 100).2
          (some ⟨JsVal.str "p2", JsVal.str "B", JsVal.str "draw", some 200⟩) 200).2).2
        = [withTimestamp ⟨JsVal.str "p1", JsVal.str "A", JsVal.str "draw", some 100⟩ 100] :=
  global_undo_undoes_latest
    ⟨JsVal.str "p1", JsVal.str "A", JsVal.str "draw", some 100⟩
    ⟨JsVal.str "p2", JsVal.str "B", JsVal.str "draw", some 200⟩
    100 200 (by decide) (by decide) rfl rfl (by decide)

/-- C7: a validated operation is always accepted and lands at the end
of the log; the only change ever made to it is timestamp assignment
when the submitted timestamp is falsy, and the conflict-resolution
stage is the identity on the operation regardless of what the
classifier found. -/
theorem conflict_no_effect (s : DrawingStateManager) (op : Operation) (now : Int)
    (hs : Reachable s) (hv : validOp op) :
    (addOperation s (some op) now).1 = true
      ∧ (addOperation s (some op) now).2.operations.getLast?
        = some (withTimestamp op now)
      ∧ (withTimestamp op now).id = op.id
      ∧ (withTimestamp op now).userId = op.userId
      ∧ (withTimestamp op now).type = op.type
      ∧ (tsFalsy op.timestamp = false → withTimestamp op now = op)
      ∧ (∀ o c : Operation, resolveConflict o c = o)
      ∧ ∀ (o : Operation) (c? : Option Operation),
          applyConflictResolution o c? = o :=
  ⟨by rw [addOperation_valid s op now hv],
   add_valid_getLast s op now (reachable_inv s hs) hv,
   withTimestamp_id op now, withTimestamp_userId op now,
   withTimestamp_type op now, withTimestamp_of_not_falsy op now,
   fun o c => rfl, applyConflictResolution_eq⟩

/-- Witness for C7 at the initial state with a concrete operation. -/
theorem conflict_no_effect_witness :
    (addOperation DrawingStateManager.init
        (some ⟨JsVal.str "c1", JsVal.str "uc", JsVal.str "draw", some 9⟩) 5).1 = true
      ∧ (addOperation DrawingStateManager.init
          (some ⟨JsVal.str "c1", JsVal.str "uc", JsVal.str "draw", some 9⟩) 5).2.operations.getLast?
        = some (withTimestamp ⟨JsVal.str "c1", JsVal.str "uc", JsVal.str "draw", some 9⟩ 5)
      ∧ resolveConflict ⟨JsVal.str "c1", JsVal.str "uc", JsVal.str "draw", some 9⟩
          ⟨JsVal.str "c2", JsVal.str "ud", JsVal.str "draw", some 10⟩
        = ⟨JsVal.str "c1", JsVal.str "uc", JsVal.str "draw", some 9⟩
      ∧ applyConflictResolution ⟨JsVal.str "c1", JsVal.str "uc", JsVal.str "draw", some 9⟩
          (some ⟨JsVal.str "c2", JsVal.str "ud", JsVal.str "draw", some 10⟩)
        = ⟨JsVal.str "c1", JsVal.str "uc", JsVal.str "draw", some 9⟩ :=
  ⟨(conflict_no_effect DrawingStateManager.init
      ⟨JsVal.str "c1", JsVal.str "uc", JsVal.str "draw", some 9⟩ 5
      Reachable.init (by decide)).1,
   (conflict_no_effect DrawingStateManager.init
      ⟨JsVal.str "c1", JsVal.str "uc", JsVal.str "draw", some 9⟩ 5
      Reachable.init (by decide)).2.1,
   (conflict_no_effect DrawingStateManager.init
      ⟨JsVal.str "c1", JsVal.str "uc", JsVal.str "draw", some 9⟩ 5
      Reachable.init (by decide)).2.2.2.2.2.2.1 _ _,
   (conflict_no_effect DrawingStateManager.init
      ⟨JsVal.str "c1", JsVal.str "uc", JsVal.str "draw", some 9⟩ 5
      Reachable.init (by decide)).2.2.2.2.2.2.2 _ _⟩

/-- C8 counterexample: a client-supplied timestamp of `0` is falsy in
JS, so `addOperation` does not preserve it — the stored operation
carries the server-assigned time instead. -/
theorem timestamp_zero_overwritten :
    (addOperation DrawingStateManager.init
        (some ⟨JsVal.str "z1", JsVal.str "uz", JsVal.str "draw", some 0⟩) 777).1 = true
      ∧ (addOperation DrawingStateManager.init
          (some ⟨JsVal.str "z1", JsVal.str "uz", JsVal.str "draw", some 0⟩) 777).2.operations.map
            Operation.timestamp = [some 777]
      ∧ some (777 : Int) ≠ some (0 : Int) :=
  ⟨by decide, by decide, by decide⟩

/-- C8 (amended): `addOperation` preserves a client-supplied timestamp
whenever it is truthy (nonzero); only an absent or zero timestamp is
replaced by the server's clock. -/
theorem nonzero_timestamp_preserved (s : DrawingStateManager) (op : Operation)
    (now t : Int) (hs : Reachable s) (hv : validOp op)
    (ht : op.timestamp = some t) (hnz : t ≠ 0) :
    (addOperation s (some op) now).2.operations.getLast? = some op := by
  have hfalsy : tsFalsy op.timestamp = false := by
    rw [ht]
    simpa [tsFalsy] using hnz
  have hlast := add_valid_getLast s op now (reachable_inv s hs) hv
  rwa [withTimestamp_of_not_falsy op now hfalsy] at hlast

/-- Witness for the amended C8 at a concrete nonzero timestamp. -/
theorem nonzero_timestamp_preserved_witness :
    (addOperation DrawingStateManager.init
        (some ⟨JsVal.str "k1", JsVal.str "uk", JsVal.str "draw", some 42⟩) 900).2.operations.getLast?
      = some ⟨JsVal.str "k1", JsVal.str "uk", JsVal.str "draw", some 42⟩ :=
  nonzero_timestamp_preserved _ _ 900 42 Reachable.init (by decide) rfl (by decide)

/-- C9 counterexample: `clear()` empties the `userOperations` map, so
after one accepted draw followed by `clear()` the `activeUsers`
statistic is 0 although one distinct user has submitted an accepted
operation since server start. -/
theorem active_users_forgets_after_clear :
    (getStats (runEvents
        [Event.addEvent (some ⟨JsVal.str "a1", JsVal.str "A", JsVal.str "draw", some 5⟩) 5,
         Event.clearEvent 10])).activeUsers = 0
      ∧ (usersEver
          [Event.addEvent (some ⟨JsVal.str "a1", JsVal.str "A", JsVal.str "draw", some 5⟩) 5,
           Event.clearEvent 10]).length = 1 :=
  ⟨by decide, by decide⟩

/-- C9 (amended): at every moment `getStats().activeUsers` equals the
number of distinct userIds of operations accepted by `addOperation`
since the most recent `clear()` (or since server start if none). -/
theorem active_users_counts_since_clear (es : List Event) :
    (getStats (runEvents es)).activeUsers = (usersSinceClear es).length := by
  have h := run_userOps_keys es DrawingStateManager.init [] rfl
  show ((List.foldl stepEvent DrawingStateManager.init es).userOperations).length
    = (usersSinceClear es).length
  calc ((List.foldl stepEvent DrawingStateManager.init es).userOperations).length
      = ((List.foldl stepEvent DrawingStateManager.init
          es).userOperations.map Prod.fst).length := (List.length_map _ _).symm
    _ = (List.foldl usersSinceClearStep [] es).length := by rw [h]
    _ = (usersSinceClear es).length := rfl

/-- C10: `addOperation` rejects exactly when the argument is absent,
the `id` is strictly `undefined`, or the `userId` or `type` is falsy;
hence `null`, `0` and `""` ids are accepted while an empty-string
`userId` or `type` is rejected. -/
theorem validation_truthiness :
    (∀ (s : DrawingStateManager) (now : Int),
        (addOperation s none now).1 = false)
      ∧ (∀ (s : DrawingStateManager) (op : Operation) (now : Int),
          (addOperation s (some op) now).1 = false
            ↔ (op.id = JsVal.undefined ∨ op.userId.truthy = false
                ∨ op.type.truthy = false))
      ∧ (addOperation DrawingStateManager.init
          (some ⟨JsVal.null, JsVal.str "u", JsVal.str "draw", some 5⟩) 1).1 = true
      ∧ (addOperation DrawingStateManager.init
          (some ⟨JsVal.num 0, JsVal.str "u", JsVal.str "draw", some 5⟩) 1).1 = true
      ∧ (addOperation DrawingStateManager.init
          (some ⟨JsVal.str "", JsVal.str "u", JsVal.str "draw", some 5⟩) 1).1 = true
      ∧ (addOperation DrawingStateManager.init
          (some ⟨JsVal.str "i", JsVal.str "", JsVal.str "draw", some 5⟩) 1).1 = false
      ∧ (addOperation DrawingStateManager.init
          (some ⟨JsVal.str "i", JsVal.str "u", JsVal.str "", some 5⟩) 1).1 = false := by
  refine ⟨fun s now => rfl, ?_, by decide, by decide, by decide, by decide, by decide⟩
  intro s op now
  by_cases hcond : op.id = JsVal.undefined ∨ op.userId.truthy = false
      ∨ op.type.truthy = false
  · simp only [addOperation, if_pos hcond]
    simpa using hcond
  · simp only [addOperation, if_neg hcond]
    simpa using hcond

/-- Witness for C6 at concrete inputs: a malformed operation against
the initial state, and undo/redo at the initial state's boundaries. -/
theorem failure_atomicity_witness :
    addOperation DrawingStateManager.init
        (some ⟨JsVal.undefined, JsVal.str "u1", JsVal.str "draw", some 1⟩) 1
      = (false, DrawingStateManager.init)
      ∧ globalUndo DrawingStateManager.init
        = ({ success := false, operation := none, remainingOperations := [] },
           DrawingStateManager.init)
      ∧ globalRedo DrawingStateManager.init
        = ({ success := false, operation := none, remainingOperations := [] },
           DrawingStateManager.init) :=
  ⟨failure_atomicity.1 _ _ 1 (Or.inl rfl),
   failure_atomicity.2.1 _ rfl,
   failure_atomicity.2.2 _ (by decide)⟩

end Canvas
